import Mathlib

/-!
Verification development for the wrenlet crate: a shallow embedding of its
slot-marshalling layer (src/value.rs, src/raw.rs), its reference counting
(src/wren.rs, src/wren2.rs, src/builder.rs, src/builder2.rs) and its
diagnostics capture (src/wren.rs, src/builder.rs), together with theorems
settling the specified properties.

Modelling conventions:
- The native Wren virtual machine is reached only through its C ABI and is a
  black box; its slot array is modelled as a list of tagged slot values, and
  the native calls are modelled at their documented interface.
- Rust f64 values are carried opaquely by their bit pattern (the marshalling
  layer stores and reloads them without any arithmetic).
- Rust panics (assert failures, unwrap on error values, and the
  unimplemented-code marker) are modelled as a distinguished failure outcome
  tagged with the kind of panic, beside ordinary error returns.
- Rust byte strings are lists of natural numbers below 256; the standard
  library routines for UTF-8 validation and lossy decoding, which live
  outside this repository, are modelled from the RFC 3629 well-formedness
  table that the Rust standard library documents.
-/

namespace Wrenlet

/-- Model of a Rust f64 value: an opaque 64-bit pattern. The marshalling
layer only stores and reloads doubles, so no arithmetic is modelled. -/
structure Float64 where
  bits : Nat
deriving DecidableEq

/-- Model of WrenType from src/raw.rs: the type tag of a value stored in a
slot. -/
inductive WrenType
  | null
  | bool
  | num
  | string
  | list
  | map
  | unknown
  | foreign
deriving DecidableEq

/-- Model of the contents of one native VM slot, one constructor per
WrenType tag. The List, Map, Unknown and Foreign contents are never read by
the code under verification (all such reads are unimplemented there), so
they carry no payload here. -/
inductive SlotValue
  | null
  | bool (b : Bool)
  | num (x : Float64)
  | string (bs : List Nat)
  | list
  | map
  | unknown
  | foreign
deriving DecidableEq

/-- Model of Value from src/value.rs: the host-side transient view of one
slot (Null, Bool, Num or String). -/
inductive Value
  | null
  | bool (b : Bool)
  | num (x : Float64)
  | string (bs : List Nat)
deriving DecidableEq

/-- The slot content that putting a host Value stores: each outbound scalar
conversion in src/value.rs writes its value through the matching native
setter. -/
def Value.encode : Value → SlotValue
  | .null => .null
  | .bool b => .bool b
  | .num x => .num x
  | .string bs => .string bs

/-- Model of the native VM slot array reachable through the WrenPtr of
src/raw.rs. -/
structure VMState where
  slots : List SlotValue
deriving DecidableEq

/-- The kinds of Rust panic the embedded code can raise. -/
inductive PanicKind
  | assertionFailure
  | todoUnimplemented
  | unwrapFailure
deriving DecidableEq

/-- Model of MismatchedValueError from src/error.rs. -/
structure MismatchedValueError where
  expected : List WrenType
  found : WrenType
deriving DecidableEq

/-- Model of Error from src/error.rs. -/
inductive Error
  | runtime
  | compile
  | mismatchedValue (e : MismatchedValueError)
deriving DecidableEq

/-- A failed computation: an ordinary Error return, or a Rust panic. -/
inductive Failure
  | err (e : Error)
  | panic (k : PanicKind)
deriving DecidableEq

/-- Computations of the embedded Rust code: a value, an Error, or a panic. -/
abbrev M (α : Type) := Except Failure α

/-! ### UTF-8 validity and lossy decoding

Modelled from the Rust standard library contract (str validity is exactly
RFC 3629 well-formedness; from_utf8_lossy replaces each ill-formed sequence
with the replacement character U+FFFD). Only the behaviour on well-formed
input (identity) and on concrete ill-formed inputs is relied upon. -/

/-- The UTF-8 encoding of the replacement character U+FFFD. -/
def replacementBytes : List Nat := [0xEF, 0xBF, 0xBD]

/-- Whether a byte is a UTF-8 continuation byte. -/
def isCont (b : Nat) : Bool := decide (0x80 ≤ b) && decide (b ≤ 0xBF)

/-- Whether two bytes form a well-formed 2-byte UTF-8 sequence. -/
def twoByte (b c1 : Nat) : Bool :=
  decide (0xC2 ≤ b) && decide (b ≤ 0xDF) && isCont c1

/-- Whether three bytes form a well-formed 3-byte UTF-8 sequence. -/
def threeByte (b c1 c2 : Nat) : Bool :=
  ((b == 0xE0) && decide (0xA0 ≤ c1) && decide (c1 ≤ 0xBF)
    || (decide (0xE1 ≤ b) && decide (b ≤ 0xEC)) && isCont c1
    || (b == 0xED) && decide (0x80 ≤ c1) && decide (c1 ≤ 0x9F)
    || (decide (0xEE ≤ b) && decide (b ≤ 0xEF)) && isCont c1)
  && isCont c2

/-- Whether four bytes form a well-formed 4-byte UTF-8 sequence. -/
def fourByte (b c1 c2 c3 : Nat) : Bool :=
  ((b == 0xF0) && decide (0x90 ≤ c1) && decide (c1 ≤ 0xBF)
    || (decide (0xF1 ≤ b) && decide (b ≤ 0xF3)) && isCont c1
    || (b == 0xF4) && decide (0x80 ≤ c1) && decide (c1 ≤ 0x8F)) && isCont c2
  && isCont c3

/-- Length (1 to 4) of the well-formed UTF-8 sequence at the head of the
list, or none when the head is ill-formed. -/
def utf8SeqLen : List Nat → Option Nat
  | [] => none
  | [b] => if b ≤ 0x7F then some 1 else none
  | [b, c1] =>
    if b ≤ 0x7F then some 1
    else if twoByte b c1 then some 2
    else none
  | [b, c1, c2] =>
    if b ≤ 0x7F then some 1
    else if twoByte b c1 then some 2
    else if threeByte b c1 c2 then some 3
    else none
  | b :: c1 :: c2 :: c3 :: _ =>
    if b ≤ 0x7F then some 1
    else if twoByte b c1 then some 2
    else if threeByte b c1 c2 then some 3
    else if fourByte b c1 c2 c3 then some 4
    else none

/-- Fuel-indexed UTF-8 validity check; the fuel bounds the number of decoded
sequences and is always instantiated with the byte count. -/
def isValidUtf8Aux : Nat → List Nat → Bool
  | 0, l => l.isEmpty
  | _ + 1, [] => true
  | fuel + 1, b :: t =>
    match utf8SeqLen (b :: t) with
    | some k => isValidUtf8Aux fuel ((b :: t).drop k)
    | none => false

/-- Whether a byte list is well-formed UTF-8 (the Rust str validity
predicate). -/
def isValidUtf8 (bs : List Nat) : Bool := isValidUtf8Aux bs.length bs

/-- Fuel-indexed lossy UTF-8 decode followed by re-encode: well-formed
sequences are kept verbatim, each ill-formed byte run contributes the
replacement character. -/
def utf8LossyAux : Nat → List Nat → List Nat
  | 0, _ => []
  | _ + 1, [] => []
  | fuel + 1, b :: t =>
    match utf8SeqLen (b :: t) with
    | some k => (b :: t).take k ++ utf8LossyAux fuel ((b :: t).drop k)
    | none => replacementBytes ++ utf8LossyAux fuel t

/-- Model of the byte content of Rust String::from_utf8_lossy. -/
def from_utf8_lossy (bs : List Nat) : List Nat := utf8LossyAux bs.length bs

example : isValidUtf8 [104, 105] = true := by decide
example : isValidUtf8 [0xFF] = false := by decide
example : isValidUtf8 [0xC3, 0xA9] = true := by decide
example : isValidUtf8 [0xC3] = false := by decide
example : isValidUtf8 [0xED, 0xA0, 0x80] = false := by decide
example : from_utf8_lossy [0xFF] = replacementBytes := by decide
example : from_utf8_lossy [104, 0xFF, 105] = [104, 0xEF, 0xBF, 0xBD, 105] := by decide

/-- A well-formed head sequence has length between 1 and the length of the
list. -/
theorem utf8SeqLen_bounds {l : List Nat} {k : Nat} (h : utf8SeqLen l = some k) :
    1 ≤ k ∧ k ≤ l.length := by
  match l with
  | [] => simp [utf8SeqLen] at h
  | [b] =>
    simp only [utf8SeqLen] at h
    split at h
    · cases h
      refine ⟨by omega, by simp only [List.length_cons, List.length_nil]; omega⟩
    · cases h
  | [b, c1] =>
    simp only [utf8SeqLen] at h
    split at h
    · cases h
      refine ⟨by omega, by simp only [List.length_cons, List.length_nil]; omega⟩
    · split at h
      · cases h
        refine ⟨by omega, by simp only [List.length_cons, List.length_nil]; omega⟩
      · cases h
  | [b, c1, c2] =>
    simp only [utf8SeqLen] at h
    split at h
    · cases h
      refine ⟨by omega, by simp only [List.length_cons, List.length_nil]; omega⟩
    · split at h
      · cases h
        refine ⟨by omega, by simp only [List.length_cons, List.length_nil]; omega⟩
      · split at h
        · cases h
          refine ⟨by omega, by simp only [List.length_cons, List.length_nil]; omega⟩
        · cases h
  | b :: c1 :: c2 :: c3 :: r =>
    simp only [utf8SeqLen] at h
    split at h
    · cases h
      refine ⟨by omega, by simp only [List.length_cons, List.length_nil]; omega⟩
    · split at h
      · cases h
        refine ⟨by omega, by simp only [List.length_cons, List.length_nil]; omega⟩
      · split at h
        · cases h
          refine ⟨by omega, by simp only [List.length_cons, List.length_nil]; omega⟩
        · split at h
          · cases h
            refine ⟨by omega, by simp only [List.length_cons, List.length_nil]; omega⟩
          · cases h

/-- On well-formed input, the lossy decode keeps every byte (with enough
fuel). -/
theorem utf8LossyAux_of_valid :
    ∀ (fuel : Nat) (l : List Nat), l.length ≤ fuel →
      isValidUtf8Aux fuel l = true → utf8LossyAux fuel l = l := by
  intro fuel
  induction fuel with
  | zero =>
    intro l hlen _
    have : l = [] := List.length_eq_zero.mp (Nat.le_zero.mp hlen)
    subst this
    rfl
  | succ n ih =>
    intro l hlen hval
    match l with
    | [] => rfl
    | b :: t =>
      cases hk : utf8SeqLen (b :: t) with
      | none =>
        simp only [isValidUtf8Aux, hk] at hval
        exact Bool.noConfusion hval
      | some k =>
        simp only [isValidUtf8Aux, hk] at hval
        obtain ⟨hk1, hk2⟩ := utf8SeqLen_bounds hk
        have hdrop : ((b :: t).drop k).length ≤ n := by
          simp only [List.length_drop]
          simp only [List.length_cons] at hlen ⊢
          omega
        simp only [utf8LossyAux, hk]
        rw [ih _ hdrop hval]
        exact List.take_append_drop k (b :: t)

/-- On well-formed input, the lossy conversion is the identity. -/
theorem from_utf8_lossy_of_valid {bs : List Nat} (h : isValidUtf8 bs = true) :
    from_utf8_lossy bs = bs :=
  utf8LossyAux_of_valid bs.length bs (Nat.le_refl _) h

/-! ### The native slot interface

The operations of the C ABI used by src/raw.rs and src/wren.rs, modelled on
the slot-array state. The native wrenEnsureSlots grows the slot array to the
requested count and never shrinks it; the contents of freshly grown native
slots are arbitrary, which the model captures with a garbage assignment g
universally quantified in every theorem. -/

/-- Model of wrenGetSlotCount. -/
def VMState.get_slot_count (st : VMState) : Nat := st.slots.length

/-- Model of wrenSetSlotNull at an in-range slot (src/raw.rs set_slot_null;
bounds are the callers responsibility at this layer). -/
def VMState.set_slot_null (st : VMState) (slot : Nat) : VMState :=
  ⟨st.slots.set slot .null⟩

/-- Model of wrenSetSlotBool (src/raw.rs set_slot_bool). -/
def VMState.set_slot_bool (st : VMState) (slot : Nat) (b : Bool) : VMState :=
  ⟨st.slots.set slot (.bool b)⟩

/-- Model of wrenSetSlotDouble (src/raw.rs set_slot_double). -/
def VMState.set_slot_double (st : VMState) (slot : Nat) (x : Float64) : VMState :=
  ⟨st.slots.set slot (.num x)⟩

/-- Model of wrenSetSlotBytes (src/raw.rs set_slot_bytes): the bytes are
copied into the VM. -/
def VMState.set_slot_bytes (st : VMState) (slot : Nat) (bs : List Nat) : VMState :=
  ⟨st.slots.set slot (.string bs)⟩

/-- Model of the native wrenEnsureSlots call: grow the slot array to n
slots filled with arbitrary garbage g, never shrink. -/
def wrenEnsureSlots (g : Nat → SlotValue) (n : Nat) (st : VMState) : VMState :=
  if st.slots.length < n then
    ⟨st.slots ++ (List.range (n - st.slots.length)).map g⟩
  else st

/-- The largest slot count representable as an i32, the bound checked by
both Rust wrappers before calling into the C ABI. -/
def i32Max : Nat := 2147483647

/-- The slot-nulling loop of src/raw.rs ensure_slots: set count slots to
null starting at index a. -/
def setNullFrom : VMState → Nat → Nat → VMState
  | st, _, 0 => st
  | st, a, c + 1 => setNullFrom (st.set_slot_null a) (a + 1) c

/-- Model of WrenPtr::ensure_slots from src/raw.rs: reject totals beyond
i32 (an unimplemented branch, hence a panic), call the native grow, then
null-initialise every slot from the old count to the new count. -/
def WrenPtr.ensure_slots (g : Nat → SlotValue) (total : Nat) (st : VMState) :
    M VMState :=
  if total ≤ i32Max then
    let old := st.slots.length
    let st1 := wrenEnsureSlots g total st
    .ok (setNullFrom st1 old (st1.slots.length - old))
  else .error (.panic .todoUnimplemented)

/-- Model of RawWren::set_slot from src/wren.rs restricted to the Null
value it is called with here: it asserts the slot is in range before
writing. -/
def RawWren.set_slot_null (st : VMState) (slot : Nat) : M VMState :=
  if slot < st.get_slot_count then .ok (st.set_slot_null slot)
  else .error (.panic .assertionFailure)

/-- The slot-nulling loop of src/wren.rs ensure_slots, built on the
asserting set_slot: set count slots to null starting at index a. -/
def setNullFromChecked : VMState → Nat → Nat → M VMState
  | st, _, 0 => .ok st
  | st, a, c + 1 =>
    (RawWren.set_slot_null st a).bind fun st1 => setNullFromChecked st1 (a + 1) c

/-- Model of RawWren::ensure_slots from src/wren.rs: the range of new slots
is computed before the native call (old count up to the requested total),
the total is converted to i32 with unwrap, the native grow runs, then every
slot of the recorded range is set to Null through the asserting setter. -/
def RawWren.ensure_slots (g : Nat → SlotValue) (total : Nat) (st : VMState) :
    M VMState :=
  let old := st.slots.length
  if total ≤ i32Max then
    let st1 := wrenEnsureSlots g total st
    setNullFromChecked st1 old (total - old)
  else .error (.panic .unwrapFailure)

theorem wrenEnsureSlots_length (g : Nat → SlotValue) (n : Nat) (st : VMState) :
    (wrenEnsureSlots g n st).slots.length = max st.slots.length n := by
  unfold wrenEnsureSlots
  split
  · simp only [List.length_append, List.length_map, List.length_range]
    omega
  · omega

theorem wrenEnsureSlots_getElem_lt (g : Nat → SlotValue) (n : Nat) (st : VMState)
    (i : Nat) (h : i < st.slots.length) :
    (wrenEnsureSlots g n st).slots[i]? = st.slots[i]? := by
  unfold wrenEnsureSlots
  split
  · rw [List.getElem?_append, if_pos h]
  · rfl

theorem setNullFrom_length (c a : Nat) (st : VMState) :
    (setNullFrom st a c).slots.length = st.slots.length := by
  induction c generalizing a st with
  | zero => rfl
  | succ m ih =>
    simp only [setNullFrom]
    rw [ih]
    simp [VMState.set_slot_null]

theorem setNullFrom_getElem_out (c : Nat) :
    ∀ (a : Nat) (st : VMState) (i : Nat), i < a ∨ a + c ≤ i →
      (setNullFrom st a c).slots[i]? = st.slots[i]? := by
  induction c with
  | zero => intro a st i _; rfl
  | succ m ih =>
    intro a st i hi
    simp only [setNullFrom]
    rw [ih (a + 1) _ i (by omega)]
    simp only [VMState.set_slot_null]
    rw [List.getElem?_set_ne (by omega)]

theorem setNullFrom_getElem_in (c : Nat) :
    ∀ (a : Nat) (st : VMState) (i : Nat), a ≤ i → i < a + c →
      i < st.slots.length → (setNullFrom st a c).slots[i]? = some .null := by
  induction c with
  | zero => intro a st i h1 h2 _; omega
  | succ m ih =>
    intro a st i h1 h2 hlen
    simp only [setNullFrom]
    rcases Nat.eq_or_lt_of_le h1 with heq | hlt
    · subst heq
      rw [setNullFrom_getElem_out m (a + 1) _ a (by omega)]
      simp only [VMState.set_slot_null]
      rw [List.getElem?_set_self hlen]
    · exact ih (a + 1) _ i (by omega) (by omega)
        (by simp [VMState.set_slot_null]; omega)

/-- Full behaviour of the raw ensure_slots wrapper: within the i32 bound it
succeeds, the slot count becomes the maximum of the old count and the
request, old slots keep their contents, and every newly created slot reads
back as Null, whatever garbage the native grow left there. -/
theorem WrenPtr_ensure_slots_spec (g : Nat → SlotValue) (total : Nat)
    (st : VMState) (h : total ≤ i32Max) :
    ∃ st', WrenPtr.ensure_slots g total st = .ok st' ∧
      st'.slots.length = max st.slots.length total ∧
      (∀ i, i < st.slots.length → st'.slots[i]? = st.slots[i]?) ∧
      (∀ i, st.slots.length ≤ i → i < st'.slots.length →
        st'.slots[i]? = some .null) := by
  refine ⟨_, by rw [WrenPtr.ensure_slots, if_pos h], ?_, ?_, ?_⟩
  · rw [setNullFrom_length, wrenEnsureSlots_length]
  · intro i hi
    rw [setNullFrom_getElem_out _ _ _ i (Or.inl hi)]
    exact wrenEnsureSlots_getElem_lt g total st i hi
  · intro i hi1 hi2
    rw [setNullFrom_length, wrenEnsureSlots_length] at hi2
    refine setNullFrom_getElem_in _ _ _ i hi1 ?_ ?_
    · rw [wrenEnsureSlots_length]; omega
    · rw [wrenEnsureSlots_length]; omega

theorem setNullFromChecked_ok (c : Nat) :
    ∀ (a : Nat) (st : VMState), a + c ≤ st.slots.length →
      setNullFromChecked st a c = .ok (setNullFrom st a c) := by
  induction c with
  | zero => intro a st _; rfl
  | succ m ih =>
    intro a st h
    simp only [setNullFromChecked, setNullFrom, RawWren.set_slot_null]
    rw [if_pos (by exact Nat.lt_of_lt_of_le (by omega) h)]
    simp only [Except.bind]
    exact ih (a + 1) _ (by simp [VMState.set_slot_null]; omega)

/-- Full behaviour of the src/wren.rs ensure_slots: same contract as the
raw wrapper. -/
theorem RawWren_ensure_slots_spec (g : Nat → SlotValue) (total : Nat)
    (st : VMState) (h : total ≤ i32Max) :
    ∃ st', RawWren.ensure_slots g total st = .ok st' ∧
      st'.slots.length = max st.slots.length total ∧
      (∀ i, i < st.slots.length → st'.slots[i]? = st.slots[i]?) ∧
      (∀ i, st.slots.length ≤ i → i < st'.slots.length →
        st'.slots[i]? = some .null) := by
  have hok : setNullFromChecked (wrenEnsureSlots g total st) st.slots.length
      (total - st.slots.length)
      = .ok (setNullFrom (wrenEnsureSlots g total st) st.slots.length
          (total - st.slots.length)) := by
    refine setNullFromChecked_ok _ _ _ ?_
    rw [wrenEnsureSlots_length]; omega
  refine ⟨_, by rw [RawWren.ensure_slots]; simp only [if_pos h]; exact hok, ?_, ?_, ?_⟩
  · rw [setNullFrom_length, wrenEnsureSlots_length]
  · intro i hi
    rw [setNullFrom_getElem_out _ _ _ i (Or.inl hi)]
    exact wrenEnsureSlots_getElem_lt g total st i hi
  · intro i hi1 hi2
    rw [setNullFrom_length, wrenEnsureSlots_length] at hi2
    refine setNullFrom_getElem_in _ _ _ i hi1 (by omega) ?_
    rw [wrenEnsureSlots_length]; omega

/-! ### Inbound conversions (FromWren, src/value.rs)

The decode of one slot into a host Value, instrumented with the list of
native slot accessors it performs (the initial wrenGetSlotCount call is a
count query, not a slot accessor, and is not logged). -/

/-- One native read of a slot performed during a decode. -/
inductive SlotAccess
  | getSlotType (slot : Nat)
  | getSlotBool (slot : Nat)
  | getSlotDouble (slot : Nat)
  | getSlotString (slot : Nat)
deriving DecidableEq

/-- Model of the FromWren implementation for Value in src/value.rs: a slot
index at or past the current slot count yields Null at once; otherwise the
slot type tag is read and dispatched on, where the List, Map, Unknown and
Foreign arms are unimplemented (panics). The second component lists the
native slot accessors invoked. -/
def Value.get_value (st : VMState) (slot : Nat) : M Value × List SlotAccess :=
  if st.slots.length ≤ slot then (.ok .null, [])
  else
    match st.slots.getD slot .null with
    | .null => (.ok .null, [.getSlotType slot])
    | .bool b => (.ok (.bool b), [.getSlotType slot, .getSlotBool slot])
    | .num x => (.ok (.num x), [.getSlotType slot, .getSlotDouble slot])
    | .string bs => (.ok (.string bs), [.getSlotType slot, .getSlotString slot])
    | .list => (.error (.panic .todoUnimplemented), [.getSlotType slot])
    | .map => (.error (.panic .todoUnimplemented), [.getSlotType slot])
    | .unknown => (.error (.panic .todoUnimplemented), [.getSlotType slot])
    | .foreign => (.error (.panic .todoUnimplemented), [.getSlotType slot])

/-- Model of the FromWren implementation for the unit type: any non-Null
decoded Value hits an unimplemented arm (a panic, not an error return). -/
def unit_get_value (st : VMState) (slot : Nat) : M Unit :=
  match (Value.get_value st slot).1 with
  | .ok .null => .ok ()
  | .ok _ => .error (.panic .todoUnimplemented)
  | .error e => .error e

/-- Model of the FromWren implementation for bool: any non-Bool decoded
Value hits an unimplemented arm (a panic, not an error return). -/
def bool_get_value (st : VMState) (slot : Nat) : M Bool :=
  match (Value.get_value st slot).1 with
  | .ok (.bool b) => .ok b
  | .ok _ => .error (.panic .todoUnimplemented)
  | .error e => .error e

/-- Model of the FromWren implementation for f64. -/
def f64_get_value (st : VMState) (slot : Nat) : M Float64 :=
  match (Value.get_value st slot).1 with
  | .ok (.num x) => .ok x
  | .ok _ => .error (.panic .todoUnimplemented)
  | .error e => .error e

/-- Model of the FromWren implementation for a byte slice. -/
def bytes_get_value (st : VMState) (slot : Nat) : M (List Nat) :=
  match (Value.get_value st slot).1 with
  | .ok (.string bs) => .ok bs
  | .ok _ => .error (.panic .todoUnimplemented)
  | .error e => .error e

/-- Model of the FromWren implementation for a str reference: the bytes are
run through str::from_utf8 and the result is unwrapped, so ill-formed UTF-8
panics. -/
def str_get_value (st : VMState) (slot : Nat) : M (List Nat) :=
  match bytes_get_value st slot with
  | .ok bs => if isValidUtf8 bs then .ok bs else .error (.panic .unwrapFailure)
  | .error e => .error e

/-- Model of the FromWren implementation for Cow of str: the bytes are run
through the lossy conversion, which never fails. -/
def cow_get_value (st : VMState) (slot : Nat) : M (List Nat) :=
  match bytes_get_value st slot with
  | .ok bs => .ok (from_utf8_lossy bs)
  | .error e => .error e

/-- Model of the FromWren implementation for String: the Cow conversion
followed by to_string. -/
def string_get_value (st : VMState) (slot : Nat) : M (List Nat) :=
  match cow_get_value st slot with
  | .ok t => .ok t
  | .error e => .error e

/-! ### Outbound conversions (IntoWren, src/value.rs)

Every scalar put first ensures slot + 1 slots through the raw wrapper, then
writes the value through the matching native setter. -/

/-- Model of the IntoWren implementation for the unit type. -/
def unit_put_value (g : Nat → SlotValue) (slot : Nat) (st : VMState) : M VMState :=
  (WrenPtr.ensure_slots g (slot + 1) st).map fun s => s.set_slot_null slot

/-- Model of the IntoWren implementation for bool. -/
def bool_put_value (g : Nat → SlotValue) (b : Bool) (slot : Nat) (st : VMState) :
    M VMState :=
  (WrenPtr.ensure_slots g (slot + 1) st).map fun s => s.set_slot_bool slot b

/-- Model of the IntoWren implementation for f64. -/
def f64_put_value (g : Nat → SlotValue) (x : Float64) (slot : Nat) (st : VMState) :
    M VMState :=
  (WrenPtr.ensure_slots g (slot + 1) st).map fun s => s.set_slot_double slot x

/-- Model of the IntoWren implementation for byte slices. -/
def bytes_put_value (g : Nat → SlotValue) (bs : List Nat) (slot : Nat)
    (st : VMState) : M VMState :=
  (WrenPtr.ensure_slots g (slot + 1) st).map fun s => s.set_slot_bytes slot bs

/-- Model of the IntoWren implementation for str: put the bytes of the
string. -/
def str_put_value (g : Nat → SlotValue) (s : List Nat) (slot : Nat)
    (st : VMState) : M VMState :=
  bytes_put_value g s slot st

/-- The IntoWren dispatch on an already-marshalled host Value: which scalar
put runs for each host value shape. -/
def put_value (g : Nat → SlotValue) : Value → Nat → VMState → M VMState
  | .null, slot, st => unit_put_value g slot st
  | .bool b, slot, st => bool_put_value g b slot st
  | .num x, slot, st => f64_put_value g x slot st
  | .string bs, slot, st => str_put_value g bs slot st

/-- Behaviour of one scalar put within the i32 bound: it succeeds, the slot
array holds at least slot + 1 slots, the target slot holds the encoded
value, and every other previously existing slot is unchanged. -/
theorem put_value_spec (g : Nat → SlotValue) (v : Value) (slot : Nat)
    (st : VMState) (h : slot + 1 ≤ i32Max) :
    ∃ st', put_value g v slot st = .ok st' ∧
      st'.slots.length = max st.slots.length (slot + 1) ∧
      st'.slots[slot]? = some v.encode ∧
      (∀ i, i ≠ slot → i < st.slots.length → st'.slots[i]? = st.slots[i]?) := by
  obtain ⟨st1, hok, hlen, hold, hnew⟩ := WrenPtr_ensure_slots_spec g (slot + 1) st h
  have hslot : slot < st1.slots.length := by rw [hlen]; omega
  have hset : ∀ (w : SlotValue), (st1.slots.set slot w).length
      = max st.slots.length (slot + 1) := by
    intro w; rw [List.length_set, hlen]
  have hgetset : ∀ (w : SlotValue), (st1.slots.set slot w)[slot]? = some w := by
    intro w; rw [List.getElem?_set_self hslot]
  have hother : ∀ (w : SlotValue) i, i ≠ slot → i < st.slots.length →
      (st1.slots.set slot w)[i]? = st.slots[i]? := by
    intro w i hne hi
    rw [List.getElem?_set_ne (fun he => hne he.symm), hold i hi]
  cases v with
  | null =>
    exact ⟨_, by rw [put_value, unit_put_value, hok]; rfl,
      hset _, hgetset _, hother _⟩
  | bool b =>
    exact ⟨_, by rw [put_value, bool_put_value, hok]; rfl,
      hset _, hgetset _, hother _⟩
  | num x =>
    exact ⟨_, by rw [put_value, f64_put_value, hok]; rfl,
      hset _, hgetset _, hother _⟩
  | string bs =>
    exact ⟨_, by rw [put_value, str_put_value, bytes_put_value, hok]; rfl,
      hset _, hgetset _, hother _⟩

/-- Decoding a slot that holds a known value: the decode reads the type tag
and the matching accessor. -/
theorem Value.get_value_at {st : VMState} {slot : Nat} {w : SlotValue}
    (h : st.slots[slot]? = some w) :
    (Value.get_value st slot).1 = match w with
      | .null => .ok .null
      | .bool b => .ok (.bool b)
      | .num x => .ok (.num x)
      | .string bs => .ok (.string bs)
      | _ => .error (.panic .todoUnimplemented) := by
  have hslot : slot < st.slots.length := by
    by_contra hc
    rw [List.getElem?_eq_none (by omega)] at h
    cases h
  have hgetD : st.slots.getD slot .null = w := by
    unfold List.getD
    rw [List.get?_eq_getElem?, h]
    rfl
  rw [Value.get_value, if_neg (by omega), hgetD]
  cases w <;> rfl

/-- C2: for every supported scalar type (unit, bool, f64, String) and every
value of that type, decoding the slot immediately after encoding the value
into the same slot yields the value back, for any prior slot-array state
and whatever garbage the native grow produces; for String the encoded bytes
are well-formed UTF-8 by construction of a Rust String. -/
theorem scalar_roundtrip (g : Nat → SlotValue) (st : VMState) (slot : Nat)
    (h : slot + 1 ≤ i32Max) :
    (∃ st', unit_put_value g slot st = .ok st' ∧
      unit_get_value st' slot = .ok ())
    ∧ (∀ b, ∃ st', bool_put_value g b slot st = .ok st' ∧
      bool_get_value st' slot = .ok b)
    ∧ (∀ x, ∃ st', f64_put_value g x slot st = .ok st' ∧
      f64_get_value st' slot = .ok x)
    ∧ (∀ s, isValidUtf8 s = true →
      ∃ st', str_put_value g s slot st = .ok st' ∧
        string_get_value st' slot = .ok s) := by
  refine ⟨?_, ?_, ?_, ?_⟩
  · obtain ⟨st', hok, _, hat, _⟩ := put_value_spec g .null slot st h
    simp only [Value.encode] at hat
    refine ⟨st', hok, ?_⟩
    have hv := Value.get_value_at hat
    simp only [unit_get_value, hv]
  · intro b
    obtain ⟨st', hok, _, hat, _⟩ := put_value_spec g (.bool b) slot st h
    simp only [Value.encode] at hat
    refine ⟨st', hok, ?_⟩
    have hv := Value.get_value_at hat
    simp only [bool_get_value, hv]
  · intro x
    obtain ⟨st', hok, _, hat, _⟩ := put_value_spec g (.num x) slot st h
    simp only [Value.encode] at hat
    refine ⟨st', hok, ?_⟩
    have hv := Value.get_value_at hat
    simp only [f64_get_value, hv]
  · intro s hs
    obtain ⟨st', hok, _, hat, _⟩ := put_value_spec g (.string s) slot st h
    simp only [Value.encode] at hat
    refine ⟨st', hok, ?_⟩
    have hv := Value.get_value_at hat
    simp only [string_get_value, cow_get_value, bytes_get_value, hv]
    rw [from_utf8_lossy_of_valid hs]

/-- Witness for C2: the round trip evaluated in slot 0 of an empty slot
array, with garbage-producing native growth, at concrete values. -/
theorem scalar_roundtrip_witness :
    (∃ st', unit_put_value (fun _ => SlotValue.foreign) 0 ⟨[]⟩ = .ok st' ∧
      unit_get_value st' 0 = .ok ())
    ∧ (∀ b, ∃ st', bool_put_value (fun _ => SlotValue.foreign) b 0 ⟨[]⟩ = .ok st' ∧
      bool_get_value st' 0 = .ok b)
    ∧ (∀ x, ∃ st', f64_put_value (fun _ => SlotValue.foreign) x 0 ⟨[]⟩ = .ok st' ∧
      f64_get_value st' 0 = .ok x)
    ∧ (∀ s, isValidUtf8 s = true →
      ∃ st', str_put_value (fun _ => SlotValue.foreign) s 0 ⟨[]⟩ = .ok st' ∧
        string_get_value st' 0 = .ok s) :=
  scalar_roundtrip (fun _ => SlotValue.foreign) ⟨[]⟩ 0 (by decide)

/-- C3: neither ensure_slots wrapper ever shrinks the slot array, and when
one grows it every newly created slot reads back as Null before the wrapper
returns, whatever garbage the native grow left in the new slots. -/
theorem ensure_slots_grows_null (g : Nat → SlotValue) (st : VMState) (n : Nat)
    (h : n ≤ i32Max) :
    (∃ st', WrenPtr.ensure_slots g n st = .ok st' ∧
      st.slots.length ≤ st'.slots.length ∧
      st'.slots.length = max st.slots.length n ∧
      (∀ i, i < st.slots.length → st'.slots[i]? = st.slots[i]?) ∧
      (∀ i, st.slots.length ≤ i → i < st'.slots.length →
        st'.slots[i]? = some .null))
    ∧ (∃ st', RawWren.ensure_slots g n st = .ok st' ∧
      st.slots.length ≤ st'.slots.length ∧
      st'.slots.length = max st.slots.length n ∧
      (∀ i, i < st.slots.length → st'.slots[i]? = st.slots[i]?) ∧
      (∀ i, st.slots.length ≤ i → i < st'.slots.length →
        st'.slots[i]? = some .null)) := by
  constructor
  · obtain ⟨st', hok, hlen, hold, hnew⟩ := WrenPtr_ensure_slots_spec g n st h
    exact ⟨st', hok, by omega, hlen, hold, hnew⟩
  · obtain ⟨st', hok, hlen, hold, hnew⟩ := RawWren_ensure_slots_spec g n st h
    exact ⟨st', hok, by omega, hlen, hold, hnew⟩

/-- Witness for C3: growing a one-slot array to three slots with
garbage-producing native growth. -/
theorem ensure_slots_grows_null_witness :
    (∃ st', WrenPtr.ensure_slots (fun _ => SlotValue.foreign) 3
        ⟨[SlotValue.bool true]⟩ = .ok st' ∧
      (⟨[SlotValue.bool true]⟩ : VMState).slots.length ≤ st'.slots.length ∧
      st'.slots.length = max (⟨[SlotValue.bool true]⟩ : VMState).slots.length 3 ∧
      (∀ i, i < (⟨[SlotValue.bool true]⟩ : VMState).slots.length →
        st'.slots[i]? = (⟨[SlotValue.bool true]⟩ : VMState).slots[i]?) ∧
      (∀ i, (⟨[SlotValue.bool true]⟩ : VMState).slots.length ≤ i →
        i < st'.slots.length → st'.slots[i]? = some .null))
    ∧ (∃ st', RawWren.ensure_slots (fun _ => SlotValue.foreign) 3
        ⟨[SlotValue.bool true]⟩ = .ok st' ∧
      (⟨[SlotValue.bool true]⟩ : VMState).slots.length ≤ st'.slots.length ∧
      st'.slots.length = max (⟨[SlotValue.bool true]⟩ : VMState).slots.length 3 ∧
      (∀ i, i < (⟨[SlotValue.bool true]⟩ : VMState).slots.length →
        st'.slots[i]? = (⟨[SlotValue.bool true]⟩ : VMState).slots[i]?) ∧
      (∀ i, (⟨[SlotValue.bool true]⟩ : VMState).slots.length ≤ i →
        i < st'.slots.length → st'.slots[i]? = some .null)) :=
  ensure_slots_grows_null (fun _ => SlotValue.foreign) ⟨[SlotValue.bool true]⟩ 3
    (by decide)

/-- The Value decode never produces an ordinary Error return: its only
failure mode is a panic in an unimplemented arm. -/
theorem Value.get_value_fst_no_err (st : VMState) (slot : Nat) (e : Error) :
    (Value.get_value st slot).1 ≠ .error (.err e) := by
  rw [Value.get_value]
  split
  · simp
  · cases hsv : st.slots.getD slot .null <;> simp

/-- C4 (evidence of the code bug): decoding a Num slot as bool runs into
the unimplemented mismatch arm and panics, and, more generally, the bool
conversion can never produce any Error value at all, in particular not the
MismatchedValueError that src/error.rs defines for this purpose. -/
theorem bool_get_value_num_panics :
    (∀ x : Float64,
      bool_get_value ⟨[.num x]⟩ 0 = .error (.panic .todoUnimplemented))
    ∧ (∀ (st : VMState) (slot : Nat) (e : Error),
      bool_get_value st slot ≠ .error (.err e)) := by
  constructor
  · intro x; rfl
  · intro st slot e hcontra
    rw [bool_get_value] at hcontra
    cases h : (Value.get_value st slot).1 with
    | ok v =>
      rw [h] at hcontra
      cases v <;> simp at hcontra
    | error f =>
      rw [h] at hcontra
      simp only [Except.error.injEq] at hcontra
      exact Value.get_value_fst_no_err st slot e (by rw [h, hcontra])

/-- Counterexample for C5: on the ill-formed byte string FF, the String
conversion does not fail with an encoding error; it succeeds and silently
substitutes the replacement character, while the str conversion panics in
an unwrap. -/
theorem string_conversion_lossy_counterexample :
    string_get_value ⟨[.string [0xFF]]⟩ 0 = .ok replacementBytes
    ∧ str_get_value ⟨[.string [0xFF]]⟩ 0 = .error (.panic .unwrapFailure) := by
  constructor <;> rfl

/-- C5 as amended: for every String slot holding ill-formed UTF-8 bytes,
the str conversion panics (str::from_utf8 followed by unwrap), the String
conversion succeeds with the lossy replacement of the ill-formed sequences,
and the separately offered Cow conversion returns the same lossy bytes. -/
theorem invalid_utf8_conversions (bs : List Nat) (h : isValidUtf8 bs = false) :
    str_get_value ⟨[.string bs]⟩ 0 = .error (.panic .unwrapFailure)
    ∧ string_get_value ⟨[.string bs]⟩ 0 = .ok (from_utf8_lossy bs)
    ∧ cow_get_value ⟨[.string bs]⟩ 0 = .ok (from_utf8_lossy bs) := by
  have hb : bytes_get_value ⟨[.string bs]⟩ 0 = .ok bs := rfl
  refine ⟨?_, ?_, ?_⟩
  · simp [str_get_value, hb, h]
  · rw [string_get_value, cow_get_value, hb]
  · rw [cow_get_value, hb]

/-- Witness for C5 as amended: the three conversions evaluated on the
ill-formed byte string FF. -/
theorem invalid_utf8_conversions_witness :
    str_get_value ⟨[.string [0xFF]]⟩ 0 = .error (.panic .unwrapFailure)
    ∧ string_get_value ⟨[.string [0xFF]]⟩ 0 = .ok (from_utf8_lossy [0xFF])
    ∧ cow_get_value ⟨[.string [0xFF]]⟩ 0 = .ok (from_utf8_lossy [0xFF]) :=
  invalid_utf8_conversions [0xFF] (by decide)

/-- C10: decoding any slot index at or past the current slot count yields
Ok Null and performs no native slot access at all. -/
theorem oob_read_total_null (st : VMState) (slot : Nat)
    (h : st.slots.length ≤ slot) :
    Value.get_value st slot = (.ok .null, []) := by
  rw [Value.get_value, if_pos h]

/-- Witness for C10: reading slot 5 of an empty slot array. -/
theorem oob_read_total_null_witness :
    Value.get_value ⟨[]⟩ 5 = (.ok .null, []) :=
  oob_read_total_null ⟨[]⟩ 5 (by decide)

/-! ### Argument tuples (WrenArguments, src/value.rs)

The trait is implemented for the empty tuple and for tuples of one through
eight marshallable values; each implementation puts element number j
(counting from one) into slot j. The tuple elements are modelled by the
host Value each element marshals to, since every scalar IntoWren
implementation writes exactly its tagged value into the requested slot. -/

/-- Model of the WrenArguments implementation for the empty tuple: it is
accepted and prepares nothing. -/
def prepare0 (st : VMState) : M VMState := .ok st

/-- Model of the WrenArguments implementation for 1-tuples. -/
def prepare1 (g : Nat → SlotValue) (a1 : Value) (st : VMState) : M VMState :=
  put_value g a1 1 st

/-- Model of the WrenArguments implementation for 2-tuples. -/
def prepare2 (g : Nat → SlotValue) (a1 a2 : Value) (st : VMState) : M VMState :=
  (put_value g a1 1 st).bind fun s => put_value g a2 2 s

/-- Model of the WrenArguments implementation for 3-tuples. -/
def prepare3 (g : Nat → SlotValue) (a1 a2 a3 : Value) (st : VMState) : M VMState :=
  (put_value g a1 1 st).bind fun s =>
  (put_value g a2 2 s).bind fun s => put_value g a3 3 s

/-- Model of the WrenArguments implementation for 4-tuples. -/
def prepare4 (g : Nat → SlotValue) (a1 a2 a3 a4 : Value) (st : VMState) :
    M VMState :=
  (put_value g a1 1 st).bind fun s =>
  (put_value g a2 2 s).bind fun s =>
  (put_value g a3 3 s).bind fun s => put_value g a4 4 s

/-- Model of the WrenArguments implementation for 5-tuples. -/
def prepare5 (g : Nat → SlotValue) (a1 a2 a3 a4 a5 : Value) (st : VMState) :
    M VMState :=
  (put_value g a1 1 st).bind fun s =>
  (put_value g a2 2 s).bind fun s =>
  (put_value g a3 3 s).bind fun s =>
  (put_value g a4 4 s).bind fun s => put_value g a5 5 s

/-- Model of the WrenArguments implementation for 6-tuples. -/
def prepare6 (g : Nat → SlotValue) (a1 a2 a3 a4 a5 a6 : Value) (st : VMState) :
    M VMState :=
  (put_value g a1 1 st).bind fun s =>
  (put_value g a2 2 s).bind fun s =>
  (put_value g a3 3 s).bind fun s =>
  (put_value g a4 4 s).bind fun s =>
  (put_value g a5 5 s).bind fun s => put_value g a6 6 s

/-- Model of the WrenArguments implementation for 7-tuples. -/
def prepare7 (g : Nat → SlotValue) (a1 a2 a3 a4 a5 a6 a7 : Value)
    (st : VMState) : M VMState :=
  (put_value g a1 1 st).bind fun s =>
  (put_value g a2 2 s).bind fun s =>
  (put_value g a3 3 s).bind fun s =>
  (put_value g a4 4 s).bind fun s =>
  (put_value g a5 5 s).bind fun s =>
  (put_value g a6 6 s).bind fun s => put_value g a7 7 s

/-- Model of the WrenArguments implementation for 8-tuples. -/
def prepare8 (g : Nat → SlotValue) (a1 a2 a3 a4 a5 a6 a7 a8 : Value)
    (st : VMState) : M VMState :=
  (put_value g a1 1 st).bind fun s =>
  (put_value g a2 2 s).bind fun s =>
  (put_value g a3 3 s).bind fun s =>
  (put_value g a4 4 s).bind fun s =>
  (put_value g a5 5 s).bind fun s =>
  (put_value g a6 6 s).bind fun s =>
  (put_value g a7 7 s).bind fun s => put_value g a8 8 s

/-- Proof helper: the sequential puts of an argument list starting at a
given slot index, to reason about all eight tuple arities at once. -/
def prepSeq (g : Nat → SlotValue) : List Value → Nat → VMState → M VMState
  | [], _, st => .ok st
  | a :: rest, i, st =>
    (put_value g a i st).bind fun s => prepSeq g rest (i + 1) s

theorem M.bind_ok {α : Type} (m : M α) : m.bind Except.ok = m := by
  cases m <;> rfl

theorem prepare1_eq (g : Nat → SlotValue) (a1 : Value) (st : VMState) :
    prepare1 g a1 st = prepSeq g [a1] 1 st := by
  simp only [prepare1, prepSeq, M.bind_ok]

theorem prepare2_eq (g : Nat → SlotValue) (a1 a2 : Value) (st : VMState) :
    prepare2 g a1 a2 st = prepSeq g [a1, a2] 1 st := by
  simp only [prepare2, prepSeq, M.bind_ok]

theorem prepare3_eq (g : Nat → SlotValue) (a1 a2 a3 : Value) (st : VMState) :
    prepare3 g a1 a2 a3 st = prepSeq g [a1, a2, a3] 1 st := by
  simp only [prepare3, prepSeq, M.bind_ok]

theorem prepare4_eq (g : Nat → SlotValue) (a1 a2 a3 a4 : Value) (st : VMState) :
    prepare4 g a1 a2 a3 a4 st = prepSeq g [a1, a2, a3, a4] 1 st := by
  simp only [prepare4, prepSeq, M.bind_ok]

theorem prepare5_eq (g : Nat → SlotValue) (a1 a2 a3 a4 a5 : Value)
    (st : VMState) :
    prepare5 g a1 a2 a3 a4 a5 st = prepSeq g [a1, a2, a3, a4, a5] 1 st := by
  simp only [prepare5, prepSeq, M.bind_ok]

theorem prepare6_eq (g : Nat → SlotValue) (a1 a2 a3 a4 a5 a6 : Value)
    (st : VMState) :
    prepare6 g a1 a2 a3 a4 a5 a6 st
      = prepSeq g [a1, a2, a3, a4, a5, a6] 1 st := by
  simp only [prepare6, prepSeq, M.bind_ok]

theorem prepare7_eq (g : Nat → SlotValue) (a1 a2 a3 a4 a5 a6 a7 : Value)
    (st : VMState) :
    prepare7 g a1 a2 a3 a4 a5 a6 a7 st
      = prepSeq g [a1, a2, a3, a4, a5, a6, a7] 1 st := by
  simp only [prepare7, prepSeq, M.bind_ok]

theorem prepare8_eq (g : Nat → SlotValue) (a1 a2 a3 a4 a5 a6 a7 a8 : Value)
    (st : VMState) :
    prepare8 g a1 a2 a3 a4 a5 a6 a7 a8 st
      = prepSeq g [a1, a2, a3, a4, a5, a6, a7, a8] 1 st := by
  simp only [prepare8, prepSeq, M.bind_ok]

/-- The sequential puts succeed within the i32 bound, place argument j at
slot i + j, and leave every slot below i that already existed unchanged. -/
theorem prepSeq_spec (g : Nat → SlotValue) :
    ∀ (args : List Value) (i : Nat) (st : VMState),
      1 ≤ i → i + args.length ≤ i32Max →
      ∃ st', prepSeq g args i st = .ok st' ∧
        (∀ j, j < args.length →
          st'.slots[i + j]? = some ((args.getD j .null).encode)) ∧
        (∀ j, j < i → j < st.slots.length → st'.slots[j]? = st.slots[j]?) := by
  intro args
  induction args with
  | nil =>
    intro i st _ _
    exact ⟨st, rfl, fun j hj => absurd hj (by simp), fun j _ _ => rfl⟩
  | cons a rest ih =>
    intro i st h1 h2
    simp only [List.length_cons] at h2
    obtain ⟨st1, hok1, hlen1, hat1, hother1⟩ :=
      put_value_spec g a i st (by omega)
    obtain ⟨st', hok, harg, hpre⟩ := ih (i + 1) st1 (by omega) (by omega)
    have hi_lt : i < st1.slots.length := by rw [hlen1]; omega
    refine ⟨st', ?_, ?_, ?_⟩
    · rw [prepSeq, hok1]
      exact hok
    · intro j hj
      cases j with
      | zero =>
        have : st'.slots[i]? = st1.slots[i]? := hpre i (by omega) hi_lt
        rw [Nat.add_zero, this, hat1]
        rfl
      | succ m =>
        have := harg m (by simp only [List.length_cons] at hj; omega)
        rw [show i + (m + 1) = i + 1 + m by omega]
        exact this
    · intro j hj hjlen
      have hj1 : st'.slots[j]? = st1.slots[j]? := by
        refine hpre j (by omega) ?_
        rw [hlen1]; omega
      rw [hj1, hother1 j (by omega) hjlen]

/-- Counterexample for C6: the empty argument tuple is not rejected; the
WrenArguments implementation for the unit tuple accepts it and prepares
nothing. -/
theorem unit_arguments_accepted :
    prepare0 ⟨[]⟩ = .ok ⟨[]⟩ ∧ ∀ f, prepare0 ⟨[]⟩ ≠ .error f :=
  ⟨rfl, fun _ h => Except.noConfusion h⟩

/-- C6 as amended: every argument tuple of arity 1 through 8 writes
argument j (counting from 1, left to right) into slot j and leaves slot 0
to the receiver (an existing slot 0 is unchanged); the empty tuple is also
implemented, accepted and prepares nothing rather than being rejected. -/
theorem prepare_assigns_consecutive_slots :
    (∀ st, prepare0 st = .ok st)
    ∧ (∀ g st a1, ∃ st', prepare1 g a1 st = .ok st' ∧
      st'.slots[1]? = some a1.encode ∧
      (0 < st.slots.length → st'.slots[0]? = st.slots[0]?))
    ∧ (∀ g st a1 a2, ∃ st', prepare2 g a1 a2 st = .ok st' ∧
      st'.slots[1]? = some a1.encode ∧ st'.slots[2]? = some a2.encode ∧
      (0 < st.slots.length → st'.slots[0]? = st.slots[0]?))
    ∧ (∀ g st a1 a2 a3, ∃ st', prepare3 g a1 a2 a3 st = .ok st' ∧
      st'.slots[1]? = some a1.encode ∧ st'.slots[2]? = some a2.encode ∧
      st'.slots[3]? = some a3.encode ∧
      (0 < st.slots.length → st'.slots[0]? = st.slots[0]?))
    ∧ (∀ g st a1 a2 a3 a4, ∃ st', prepare4 g a1 a2 a3 a4 st = .ok st' ∧
      st'.slots[1]? = some a1.encode ∧ st'.slots[2]? = some a2.encode ∧
      st'.slots[3]? = some a3.encode ∧ st'.slots[4]? = some a4.encode ∧
      (0 < st.slots.length → st'.slots[0]? = st.slots[0]?))
    ∧ (∀ g st a1 a2 a3 a4 a5, ∃ st', prepare5 g a1 a2 a3 a4 a5 st = .ok st' ∧
      st'.slots[1]? = some a1.encode ∧ st'.slots[2]? = some a2.encode ∧
      st'.slots[3]? = some a3.encode ∧ st'.slots[4]? = some a4.encode ∧
      st'.slots[5]? = some a5.encode ∧
      (0 < st.slots.length → st'.slots[0]? = st.slots[0]?))
    ∧ (∀ g st a1 a2 a3 a4 a5 a6, ∃ st',
      prepare6 g a1 a2 a3 a4 a5 a6 st = .ok st' ∧
      st'.slots[1]? = some a1.encode ∧ st'.slots[2]? = some a2.encode ∧
      st'.slots[3]? = some a3.encode ∧ st'.slots[4]? = some a4.encode ∧
      st'.slots[5]? = some a5.encode ∧ st'.slots[6]? = some a6.encode ∧
      (0 < st.slots.length → st'.slots[0]? = st.slots[0]?))
    ∧ (∀ g st a1 a2 a3 a4 a5 a6 a7, ∃ st',
      prepare7 g a1 a2 a3 a4 a5 a6 a7 st = .ok st' ∧
      st'.slots[1]? = some a1.encode ∧ st'.slots[2]? = some a2.encode ∧
      st'.slots[3]? = some a3.encode ∧ st'.slots[4]? = some a4.encode ∧
      st'.slots[5]? = some a5.encode ∧ st'.slots[6]? = some a6.encode ∧
      st'.slots[7]? = some a7.encode ∧
      (0 < st.slots.length → st'.slots[0]? = st.slots[0]?))
    ∧ (∀ g st a1 a2 a3 a4 a5 a6 a7 a8, ∃ st',
      prepare8 g a1 a2 a3 a4 a5 a6 a7 a8 st = .ok st' ∧
      st'.slots[1]? = some a1.encode ∧ st'.slots[2]? = some a2.encode ∧
      st'.slots[3]? = some a3.encode ∧ st'.slots[4]? = some a4.encode ∧
      st'.slots[5]? = some a5.encode ∧ st'.slots[6]? = some a6.encode ∧
      st'.slots[7]? = some a7.encode ∧ st'.slots[8]? = some a8.encode ∧
      (0 < st.slots.length → st'.slots[0]? = st.slots[0]?)) := by
  refine ⟨fun _ => rfl, ?_, ?_, ?_, ?_, ?_, ?_, ?_, ?_⟩
  · intro g st a1
    obtain ⟨st', hok, harg, hpre⟩ :=
      prepSeq_spec g [a1] 1 st (by omega) (by simp only [List.length_cons, List.length_nil, i32Max]; omega)
    exact ⟨st', by rw [prepare1_eq]; exact hok,
      harg 0 (by simp only [List.length_cons, List.length_nil]; omega), fun h0 => hpre 0 (by decide) h0⟩
  · intro g st a1 a2
    obtain ⟨st', hok, harg, hpre⟩ :=
      prepSeq_spec g [a1, a2] 1 st (by omega) (by simp only [List.length_cons, List.length_nil, i32Max]; omega)
    exact ⟨st', by rw [prepare2_eq]; exact hok,
      harg 0 (by simp only [List.length_cons, List.length_nil]; omega), harg 1 (by simp only [List.length_cons, List.length_nil]; omega),
      fun h0 => hpre 0 (by decide) h0⟩
  · intro g st a1 a2 a3
    obtain ⟨st', hok, harg, hpre⟩ :=
      prepSeq_spec g [a1, a2, a3] 1 st (by omega) (by simp only [List.length_cons, List.length_nil, i32Max]; omega)
    exact ⟨st', by rw [prepare3_eq]; exact hok,
      harg 0 (by simp only [List.length_cons, List.length_nil]; omega), harg 1 (by simp only [List.length_cons, List.length_nil]; omega), harg 2 (by simp only [List.length_cons, List.length_nil]; omega),
      fun h0 => hpre 0 (by decide) h0⟩
  · intro g st a1 a2 a3 a4
    obtain ⟨st', hok, harg, hpre⟩ :=
      prepSeq_spec g [a1, a2, a3, a4] 1 st (by omega) (by simp only [List.length_cons, List.length_nil, i32Max]; omega)
    exact ⟨st', by rw [prepare4_eq]; exact hok,
      harg 0 (by simp only [List.length_cons, List.length_nil]; omega), harg 1 (by simp only [List.length_cons, List.length_nil]; omega), harg 2 (by simp only [List.length_cons, List.length_nil]; omega),
      harg 3 (by simp only [List.length_cons, List.length_nil]; omega), fun h0 => hpre 0 (by decide) h0⟩
  · intro g st a1 a2 a3 a4 a5
    obtain ⟨st', hok, harg, hpre⟩ :=
      prepSeq_spec g [a1, a2, a3, a4, a5] 1 st (by omega) (by simp only [List.length_cons, List.length_nil, i32Max]; omega)
    exact ⟨st', by rw [prepare5_eq]; exact hok,
      harg 0 (by simp only [List.length_cons, List.length_nil]; omega), harg 1 (by simp only [List.length_cons, List.length_nil]; omega), harg 2 (by simp only [List.length_cons, List.length_nil]; omega),
      harg 3 (by simp only [List.length_cons, List.length_nil]; omega), harg 4 (by simp only [List.length_cons, List.length_nil]; omega),
      fun h0 => hpre 0 (by decide) h0⟩
  · intro g st a1 a2 a3 a4 a5 a6
    obtain ⟨st', hok, harg, hpre⟩ :=
      prepSeq_spec g [a1, a2, a3, a4, a5, a6] 1 st (by omega) (by simp only [List.length_cons, List.length_nil, i32Max]; omega)
    exact ⟨st', by rw [prepare6_eq]; exact hok,
      harg 0 (by simp only [List.length_cons, List.length_nil]; omega), harg 1 (by simp only [List.length_cons, List.length_nil]; omega), harg 2 (by simp only [List.length_cons, List.length_nil]; omega),
      harg 3 (by simp only [List.length_cons, List.length_nil]; omega), harg 4 (by simp only [List.length_cons, List.length_nil]; omega), harg 5 (by simp only [List.length_cons, List.length_nil]; omega),
      fun h0 => hpre 0 (by decide) h0⟩
  · intro g st a1 a2 a3 a4 a5 a6 a7
    obtain ⟨st', hok, harg, hpre⟩ :=
      prepSeq_spec g [a1, a2, a3, a4, a5, a6, a7] 1 st (by omega) (by simp only [List.length_cons, List.length_nil, i32Max]; omega)
    exact ⟨st', by rw [prepare7_eq]; exact hok,
      harg 0 (by simp only [List.length_cons, List.length_nil]; omega), harg 1 (by simp only [List.length_cons, List.length_nil]; omega), harg 2 (by simp only [List.length_cons, List.length_nil]; omega),
      harg 3 (by simp only [List.length_cons, List.length_nil]; omega), harg 4 (by simp only [List.length_cons, List.length_nil]; omega), harg 5 (by simp only [List.length_cons, List.length_nil]; omega),
      harg 6 (by simp only [List.length_cons, List.length_nil]; omega), fun h0 => hpre 0 (by decide) h0⟩
  · intro g st a1 a2 a3 a4 a5 a6 a7 a8
    obtain ⟨st', hok, harg, hpre⟩ :=
      prepSeq_spec g [a1, a2, a3, a4, a5, a6, a7, a8] 1 st (by omega) (by simp only [List.length_cons, List.length_nil, i32Max]; omega)
    exact ⟨st', by rw [prepare8_eq]; exact hok,
      harg 0 (by simp only [List.length_cons, List.length_nil]; omega), harg 1 (by simp only [List.length_cons, List.length_nil]; omega), harg 2 (by simp only [List.length_cons, List.length_nil]; omega),
      harg 3 (by simp only [List.length_cons, List.length_nil]; omega), harg 4 (by simp only [List.length_cons, List.length_nil]; omega), harg 5 (by simp only [List.length_cons, List.length_nil]; omega),
      harg 6 (by simp only [List.length_cons, List.length_nil]; omega), harg 7 (by simp only [List.length_cons, List.length_nil]; omega),
      fun h0 => hpre 0 (by decide) h0⟩

/-! ### Reference counting (src/wren.rs, src/wren2.rs, src/builder.rs)

WrenBuilder::build installs a header whose reference count starts at 1; the
claim and release operations of src/wren.rs are the only mutators. The
state carries, beside the count, the number of times the native teardown
(wrenFreeVM) has run. -/

/-- Reference-count state of the src/wren.rs VM: the count stored in the
header and how many times wrenFreeVM has been called. -/
structure RcState where
  refCount : Nat
  freeCount : Nat
deriving DecidableEq

/-- One operation on the count: a claim (increment_count) or a release
(RawWren::release). -/
inductive RcOp
  | claim
  | release
deriving DecidableEq

/-- Model of the operations of src/wren.rs: increment_count adds one;
release subtracts one (unchecked in the source, so valid sequences keep the
count positive) and, exactly when the resulting count is zero, calls
wrenFreeVM. -/
def rcStep : RcState → RcOp → RcState
  | s, .claim => { s with refCount := s.refCount + 1 }
  | s, .release =>
    let c := s.refCount - 1
    if c = 0 then { refCount := c, freeCount := s.freeCount + 1 }
    else { s with refCount := c }

/-- Running a sequence of claim and release operations from a state. -/
def rcRun (ops : List RcOp) (s : RcState) : RcState := ops.foldl rcStep s

/-- A sequence is valid from a given count when every operation executes
while the count is at least one: a release at count zero is an unchecked
underflow, and any operation after the count reached zero touches a freed
VM. -/
def rcValidFrom : Nat → List RcOp → Bool
  | _, [] => true
  | c, .claim :: t => decide (1 ≤ c) && rcValidFrom (c + 1) t
  | c, .release :: t => decide (1 ≤ c) && rcValidFrom (c - 1) t

/-- Model of WrenHeader from src/wren2.rs with the same teardown count. -/
structure WrenHeader2 where
  refCount : Nat
  freeCount : Nat
deriving DecidableEq

/-- Model of WrenHeader::release from src/wren2.rs, faithful to its body:
the count is read, one is subtracted into a local that is never stored
back, and the branch taken when that local is zero is empty, so the header
is returned unchanged and nothing is ever freed. -/
def WrenHeader2.release (h : WrenHeader2) : WrenHeader2 :=
  let c := h.refCount - 1
  if c = 0 then h else h

example : rcRun [.release] ⟨1, 0⟩ = ⟨0, 1⟩ := rfl
example : rcRun [.claim, .release, .release] ⟨1, 0⟩ = ⟨0, 1⟩ := rfl
example : rcRun [.claim, .release] ⟨1, 0⟩ = ⟨1, 0⟩ := rfl
example : WrenHeader2.release ⟨1, 0⟩ = ⟨1, 0⟩ := rfl

/-- The free count tracks the count reaching zero: along any valid
sequence, the VM has been freed exactly once when the count is zero and
never otherwise. -/
theorem rcRun_invariant :
    ∀ (ops : List RcOp) (c f : Nat), rcValidFrom c ops = true →
      f = (if c = 0 then 1 else 0) →
      (rcRun ops ⟨c, f⟩).freeCount
        = if (rcRun ops ⟨c, f⟩).refCount = 0 then 1 else 0 := by
  intro ops
  induction ops with
  | nil =>
    intro c f _ h0
    simpa [rcRun] using h0
  | cons op t ih =>
    intro c f hv h0
    cases op with
    | claim =>
      simp only [rcValidFrom, Bool.and_eq_true, decide_eq_true_eq] at hv
      have hrun : rcRun (.claim :: t) ⟨c, f⟩ = rcRun t ⟨c + 1, f⟩ := rfl
      rw [hrun]
      refine ih (c + 1) f hv.2 ?_
      rw [if_neg (by omega)]
      rw [if_neg (by omega)] at h0
      exact h0
    | release =>
      simp only [rcValidFrom, Bool.and_eq_true, decide_eq_true_eq] at hv
      have hf : f = 0 := by
        rw [if_neg (by omega)] at h0
        exact h0
      by_cases hc1 : c - 1 = 0
      · have hrun : rcRun (.release :: t) ⟨c, f⟩ = rcRun t ⟨c - 1, f + 1⟩ := by
          simp [rcRun, rcStep, hc1]
        rw [hrun]
        exact ih (c - 1) (f + 1) hv.2 (by rw [if_pos hc1]; omega)
      · have hrun : rcRun (.release :: t) ⟨c, f⟩ = rcRun t ⟨c - 1, f⟩ := by
          simp [rcRun, rcStep, hc1]
        rw [hrun]
        exact ih (c - 1) f hv.2 (by rw [if_neg hc1]; omega)

/-- Validity is closed under taking prefixes. -/
theorem rcValidFrom_take :
    ∀ (ops : List RcOp) (c m : Nat), rcValidFrom c ops = true →
      rcValidFrom c (ops.take m) = true := by
  intro ops
  induction ops with
  | nil => intro c m _; rw [List.take_nil]; rfl
  | cons op t ih =>
    intro c m hv
    cases m with
    | zero => rfl
    | succ m' =>
      cases op with
      | claim =>
        simp only [List.take_succ_cons, rcValidFrom, Bool.and_eq_true] at hv ⊢
        exact ⟨hv.1, ih _ m' hv.2⟩
      | release =>
        simp only [List.take_succ_cons, rcValidFrom, Bool.and_eq_true] at hv ⊢
        exact ⟨hv.1, ih _ m' hv.2⟩

/-- C1: in the src/wren.rs model, starting from the initial count of 1
installed by WrenBuilder::build, after every prefix of every valid
claim/release sequence the native VM has been freed exactly once if the
count has reached zero and has never been freed otherwise, so teardown
happens exactly at the release that takes the count from 1 to 0 and never
again; the src/wren2.rs WrenHeader::release, by contrast, changes nothing
and frees nothing, on any header. -/
theorem refcount_teardown_once :
    (∀ (ops : List RcOp) (m : Nat), rcValidFrom 1 ops = true →
      (rcRun (ops.take m) ⟨1, 0⟩).freeCount
        = if (rcRun (ops.take m) ⟨1, 0⟩).refCount = 0 then 1 else 0)
    ∧ (∀ h : WrenHeader2, WrenHeader2.release h = h) := by
  constructor
  · intro ops m hv
    exact rcRun_invariant (ops.take m) 1 0 (rcValidFrom_take ops 1 m hv) rfl
  · intro h
    rw [WrenHeader2.release]
    split <;> rfl

/-- Witness for C1: the single release of the initial claim, evaluated,
frees the VM exactly once in the src/wren.rs model, while the src/wren2.rs
release leaves a count-1 header untouched. -/
theorem refcount_teardown_once_witness :
    ((rcRun ([RcOp.release].take 1) ⟨1, 0⟩).freeCount
      = if (rcRun ([RcOp.release].take 1) ⟨1, 0⟩).refCount = 0 then 1 else 0)
    ∧ WrenHeader2.release ⟨1, 0⟩ = ⟨1, 0⟩ :=
  ⟨refcount_teardown_once.1 [RcOp.release] 1 (by decide),
    refcount_teardown_once.2 ⟨1, 0⟩⟩

/-- Witness for C4: on a slot holding the Num with bit pattern 42, the bool
conversion panics in the unimplemented arm and does not return the
mismatched-value error that src/error.rs defines. -/
theorem bool_get_value_num_panics_witness :
    bool_get_value ⟨[.num ⟨42⟩]⟩ 0 = .error (.panic .todoUnimplemented)
    ∧ bool_get_value ⟨[.num ⟨42⟩]⟩ 0
      ≠ .error (.err (.mismatchedValue ⟨[.bool], .num⟩)) :=
  ⟨bool_get_value_num_panics.1 ⟨42⟩,
    bool_get_value_num_panics.2 ⟨[.num ⟨42⟩]⟩ 0 (.mismatchedValue ⟨[.bool], .num⟩)⟩

/-! ### Diagnostics capture (src/wren.rs, src/builder.rs) -/

/-- Model of StackTrace from src/wren.rs. -/
structure StackTrace where
  module : String
  line : Int
  method : String
deriving DecidableEq

/-- Model of RuntimeError from src/wren.rs. -/
structure RuntimeError where
  message : String
  stack_trace : List StackTrace
deriving DecidableEq

/-- Model of CompileError from src/wren.rs. -/
structure CompileError where
  module : String
  line : Int
  message : String
deriving DecidableEq

/-- Model of the Error enum of src/wren.rs (named WrenError here because
src/error.rs also defines an Error type). -/
inductive WrenError
  | runtime (e : RuntimeError)
  | compile (e : CompileError)
deriving DecidableEq

/-- Model of WrenHeader from src/wren.rs: the accumulator fields reachable
through the user-data pointer. The foreign-layout cell plays no part in the
verified claims and is omitted. -/
structure WrenHeader where
  ref_count : Nat
  slots_allocated : Nat
  error : Option WrenError
deriving DecidableEq

/-- Model of RawWren::set_compile_error: store a fresh compile error,
overwriting whatever was there. -/
def set_compile_error (h : WrenHeader) (module : String) (line : Int)
    (message : String) : WrenHeader :=
  { h with error := some (.compile ⟨module, line, message⟩) }

/-- Model of RawWren::set_runtime_error: store a fresh runtime error with
an empty stack trace, overwriting whatever was there. -/
def set_runtime_error (h : WrenHeader) (message : String) : WrenHeader :=
  { h with error := some (.runtime ⟨message, []⟩) }

/-- Model of RawWren::add_stacktrace: append a frame to the pending runtime
error; without a pending runtime error the source panics. -/
def add_stacktrace (h : WrenHeader) (module : String) (line : Int)
    (method : String) : M WrenHeader :=
  match h.error with
  | some (.runtime e) =>
    .ok { h with error := some (.runtime ⟨e.message, e.stack_trace ++ [⟨module, line, method⟩]⟩) }
  | _ => .error (.panic .assertionFailure)

/-- The three callback kinds the VM passes to the error function. -/
inductive WrenErrorType
  | compile
  | runtime
  | stackTrace
deriving DecidableEq

/-- Model of c_functions::error_fn from src/builder.rs: dispatch on the
callback kind; the module and message pointers are non-null by the asserts
there, which the String arguments model. -/
def error_fn (ty : WrenErrorType) (module : String) (line : Int)
    (message : String) (h : WrenHeader) : M WrenHeader :=
  match ty with
  | .compile => .ok (set_compile_error h module line message)
  | .runtime => .ok (set_runtime_error h message)
  | .stackTrace => add_stacktrace h module line message

/-- C7: an error callback of kind Compile or Runtime always succeeds and
replaces the pending structured error of the header with a freshly opened
one, whatever error (if any) was pending before, so at most one pending
error is ever retained and a second error arriving before consumption
discards the first. -/
theorem error_callback_overwrites :
    (∀ (h : WrenHeader) (module message : String) (line : Int),
      error_fn .compile module line message h
        = .ok { h with error := some (.compile ⟨module, line, message⟩) })
    ∧ (∀ (h : WrenHeader) (module message : String) (line : Int),
      error_fn .runtime module line message h
        = .ok { h with error := some (.runtime ⟨message, []⟩) }) :=
  ⟨fun _ _ _ _ => rfl, fun _ _ _ _ => rfl⟩

/-! ### Handles (src/value.rs, src/wren.rs, src/wren2.rs) -/

/-- Model of Handle from src/value.rs: the identity of the VM pointer it
was created from and the identity of its native handle pointer. -/
structure Handle where
  vm : Nat
  handle : Nat
deriving DecidableEq

/-- Model of the IntoWren implementation for Handle in src/value.rs: first
assert that the handle originates from the current VM (a failed assert is
an assertion-failure panic), then store it through set_slot_handle, which
src/raw.rs leaves unimplemented, so the matching case reaches that
distinct panic instead. -/
def Handle.put_value (h : Handle) (wren : Nat) (_slot : Nat) (_st : VMState) :
    M VMState :=
  if h.vm = wren then .error (.panic .todoUnimplemented)
  else .error (.panic .assertionFailure)

/-- C8: encoding a handle into a slot of a VM other than the one it
originates from fails the originating-VM assertion, an assertion-failure
panic: it is never a successful write, so it is never silently executed
against the wrong VM; with a matching VM the assert passes and the
(separately unimplemented) slot write is reached instead. -/
theorem cross_vm_handle_rejected :
    (∀ (h : Handle) (wren slot : Nat) (st : VMState), h.vm ≠ wren →
      Handle.put_value h wren slot st = .error (.panic .assertionFailure))
    ∧ (∀ (h : Handle) (wren slot : Nat) (st : VMState), h.vm = wren →
      Handle.put_value h wren slot st = .error (.panic .todoUnimplemented)) := by
  constructor
  · intro h wren slot st hne
    rw [Handle.put_value, if_neg hne]
  · intro h wren slot st he
    rw [Handle.put_value, if_pos he]

/-- Witness for C8: a handle from VM 0 encoded into VM 1 is rejected by the
assert; the same handle into VM 0 passes the assert and reaches the
unimplemented write. -/
theorem cross_vm_handle_rejected_witness :
    Handle.put_value ⟨0, 7⟩ 1 0 ⟨[]⟩ = .error (.panic .assertionFailure)
    ∧ Handle.put_value ⟨0, 7⟩ 0 0 ⟨[]⟩ = .error (.panic .todoUnimplemented) :=
  ⟨cross_vm_handle_rejected.1 ⟨0, 7⟩ 1 0 ⟨[]⟩ (by decide),
    cross_vm_handle_rejected.2 ⟨0, 7⟩ 0 0 ⟨[]⟩ rfl⟩

/-- Events a handle destructor can perform. -/
inductive DropEvent
  | releaseHandle (vm handle : Nat)
  | releaseHeaderClaim (vm : Nat)
deriving DecidableEq

/-- Model of the Drop implementation for Handle in src/value.rs as the
sequence of release calls its body performs, in program order: first the
native handle release, then the header claim release. -/
def Handle.dropEvents (h : Handle) : List DropEvent :=
  [.releaseHandle h.vm h.handle, .releaseHeaderClaim h.vm]

/-- Model of dropping the CallHandle of src/wren.rs: the struct has no
Drop implementation and its fields carry no destructor that releases
anything, so dropping it performs no release call. -/
def CallHandle.dropEvents : List DropEvent := []

/-- Model of the Drop implementation for CallHandle in src/wren2.rs, whose
body is unimplemented (a panic). -/
def CallHandle2.drop : M Unit := .error (.panic .todoUnimplemented)

/-- C9: dropping a value Handle performs exactly two release calls, the
native handle release strictly before the header claim release; dropping
the src/wren.rs CallHandle performs no release call at all, and the
src/wren2.rs CallHandle destructor is unimplemented and panics — so the
ordering contract holds for value handles and is unmet by both CallHandle
forms. -/
theorem handle_drop_order :
    (∀ h : Handle, ∃ (i j : Nat), i < j ∧
      (Handle.dropEvents h)[i]? = some (DropEvent.releaseHandle h.vm h.handle) ∧
      (Handle.dropEvents h)[j]? = some (DropEvent.releaseHeaderClaim h.vm) ∧
      (Handle.dropEvents h).length = 2)
    ∧ CallHandle.dropEvents = []
    ∧ CallHandle2.drop = .error (.panic .todoUnimplemented) :=
  ⟨fun _ => ⟨0, 1, Nat.zero_lt_one, rfl, rfl, rfl⟩, rfl, rfl⟩

/-- Witness for C9: the destruction traces evaluated on a concrete handle
from VM 0 with native pointer 7. -/
theorem handle_drop_order_witness :
    Handle.dropEvents ⟨0, 7⟩
      = [DropEvent.releaseHandle 0 7, DropEvent.releaseHeaderClaim 0]
    ∧ CallHandle.dropEvents = [] ∧
    CallHandle2.drop = .error (.panic .todoUnimplemented) :=
  ⟨rfl, handle_drop_order.2⟩

end Wrenlet
